import Mathlib

/-!
# Ghost in the Cell referee — shallow embedding

A shallow embedding of the simulation engine of `referee.py`: the entity
model (`Factory`, `Troop`, `Bomb`, `Game`), the command interface
(`send_troop`, `send_bomb`), the per-turn pipeline (`update`,
`update_troops`-style battle collection, `update_bombs`, production), the
battle and bomb resolvers, and the random initialization
(`initialize_factories`, `initialize_distances`).

Python integers are modelled as `Int` (cyborg counts can go negative; the
source never floors them).  `random.randint(a, b)` is modelled by consuming
one value `v` from an explicit stream of naturals and returning
`a + v % (b + 1 - a)`, which always lies in `[a, b]`.  Python's
`random.sample(range(n), 2)` (two distinct indices) is modelled by `sample2`,
which derives two distinct indices below `n` from two stream values.
Python's `//` is floor division, modelled by `Int.fdiv`.  Python's `sorted`
is a stable sort, modelled by the stable insertion sort `sortDesc`
(descending on the second component, equal keys keep their original order).
Python `dict`s preserve insertion order; they are modelled as association
lists where a fresh key is appended at the end.
-/

namespace Referee

/-- The state of one factory (`Factory.__init__` fields): `owner` is `0`
for neutral, `1`/`2` for the players; `production_disabled` is the Python
field that starts as `False` (i.e. `0`) and is used as a counter. -/
structure Factory where
  owner : Int
  cyborgs : Int
  production : Int
  production_disabled : Int
deriving DecidableEq

instance : Inhabited Factory := ⟨⟨0, 0, 0, 0⟩⟩

/-- An in-flight troop (`Troop.__init__` fields). -/
structure Troop where
  owner : Int
  num_cyborgs : Int
  source_factory : Nat
  destination_factory : Nat
  travel_time : Int
deriving DecidableEq

/-- An in-flight bomb (`Bomb.__init__` fields). -/
structure Bomb where
  owner : Int
  source_factory : Nat
  destination_factory : Nat
  travel_time : Int
deriving DecidableEq

/-- The whole game state (`Game.__init__` fields).  `distances` models the
Python dict keyed by ordered pairs of factory indices. -/
structure Game where
  factories : List Factory
  troops : List Troop
  bombs : List Bomb
  distances : List ((Nat × Nat) × Int)
deriving DecidableEq

/-- `random.randint a b`: consume one stream value `v` and produce
`a + v % (b + 1 - a)`, together with the rest of the stream. -/
def randint (a b : Int) (rng : List Nat) : Int × List Nat :=
  (a + (rng.headD 0 : Int) % (b + 1 - a), rng.tail)

/-- First-match association lookup, modelling Python dict lookup (keys are
never inserted twice by this program, so first-match agrees with the dict). -/
def lookupD : List ((Nat × Nat) × Int) → Nat × Nat → Option Int
  | [], _ => none
  | e :: rest, k => if e.1 = k then some e.2 else lookupD rest k

/-- `self.distances.get(key, 20)`: the stored distance or the fallback 20. -/
def distGet (m : List ((Nat × Nat) × Int)) (k : Nat × Nat) : Int :=
  (lookupD m k).getD 20

/-- `Game.send_troop`: ownership check, then append a troop with travel time
`distances.get((source, destination), 20)` and decrement the source factory's
cyborgs by `num_cyborgs` (no floor).  A Python `ValueError` is modelled as
`Except.error`. -/
def send_troop (g : Game) (owner num_cyborgs : Int)
    (source_factory destination_factory : Nat) : Except String Game :=
  if (g.factories.getD source_factory default).owner ≠ owner then
    .error "You do not own the source factory."
  else
    let travel_time := distGet g.distances (source_factory, destination_factory)
    let f := g.factories.getD source_factory default
    .ok { g with
          troops := g.troops ++
            [⟨owner, num_cyborgs, source_factory, destination_factory, travel_time⟩],
          factories := g.factories.set source_factory
            { f with cyborgs := f.cyborgs - num_cyborgs } }

/-- `Game.send_bomb`: ownership check, then append a bomb (no resource cost). -/
def send_bomb (g : Game) (owner : Int)
    (source_factory destination_factory : Nat) : Except String Game :=
  if (g.factories.getD source_factory default).owner ≠ owner then
    .error "You do not own the source factory."
  else
    let travel_time := distGet g.distances (source_factory, destination_factory)
    .ok { g with
          bombs := g.bombs ++ [⟨owner, source_factory, destination_factory, travel_time⟩] }

/-- One step of building the `combatants` dict:
`combatants[troop.owner] += troop.num_cyborgs`, inserting an absent owner at
the end (Python dicts preserve insertion order). -/
def addCombatant : List (Int × Int) → Int → Int → List (Int × Int)
  | [], o, n => [(o, n)]
  | c :: rest, o, n =>
      if c.1 = o then (o, c.2 + n) :: rest else c :: addCombatant rest o n

/-- Group the arriving troops by owner, summing cyborg counts
(the first loop of `Game.resolve_battle`). -/
def aggregate (arriving : List Troop) : List (Int × Int) :=
  arriving.foldl (fun cs t => addCombatant cs t.owner t.num_cyborgs) []

/-- Insert into a descending list: the new element goes before the first
element whose strength is `≤` its own.  Elements already in the list keep
their relative order, so `sortDesc` below is the stable descending sort that
Python's `sorted(..., key=lambda x: x[1], reverse=True)` performs. -/
def insertDesc (x : Int × Int) : List (Int × Int) → List (Int × Int)
  | [] => [x]
  | y :: ys => if y.2 ≤ x.2 then x :: y :: ys else y :: insertDesc x ys

/-- Stable sort, descending on the aggregated strength. -/
def sortDesc : List (Int × Int) → List (Int × Int)
  | [] => []
  | x :: xs => insertDesc x (sortDesc xs)

/-- The multi-owner elimination of `Game.resolve_battle`: when more than one
owner arrives, sort descending, subtract every weaker aggregate from the
strongest sequentially, and keep only the winner with `max 0` of the result. -/
def eliminate (cs : List (Int × Int)) : List (Int × Int) :=
  if 1 < cs.length then
    match sortDesc cs with
    | [] => []
    | (w, wc) :: rest => [(w, max 0 (rest.foldl (fun acc p => acc - p.2) wc))]
  else cs

/-- Association lookup into the combatants list (`factory.owner in combatants`
plus `combatants[factory.owner]`). -/
def lookupC : List (Int × Int) → Int → Option Int
  | [], _ => none
  | c :: rest, o => if c.1 = o then some c.2 else lookupC rest o

/-- `max(combatants.values()) if combatants else 0`. -/
def maxV : List (Int × Int) → Int
  | [] => 0
  | [c] => c.2
  | c :: cs => max c.2 (maxV cs)

/-- `max(combatants, key=combatants.get)` together with its strength: Python's
`max` keeps the first maximal key in iteration (= insertion) order. -/
def argmaxC : List (Int × Int) → Int × Int
  | [] => (0, 0)
  | [c] => c
  | c :: cs => if (argmaxC cs).2 > c.2 then argmaxC cs else c

/-- The second half of `Game.resolve_battle`: the (already reduced)
combatants meet the factory's garrison.  Reinforcement if the factory owner
is among the combatants; conquest (with a fresh `randint 0 3` production)
when the strongest attacking force exceeds the garrison; repelled otherwise. -/
def battleAgainstFactory (fs : List Factory) (destination_factory : Nat)
    (cs : List (Int × Int)) (rng : List Nat) : List Factory × List Nat :=
  let factory := fs.getD destination_factory default
  match lookupC cs factory.owner with
  | some s =>
      (fs.set destination_factory { factory with cyborgs := factory.cyborgs + s }, rng)
  | none =>
      let attacking_force := maxV cs
      if attacking_force > factory.cyborgs then
        let new_owner := (argmaxC cs).1
        let (p, rng') := randint 0 3 rng
        (fs.set destination_factory
          { factory with
            owner := new_owner,
            cyborgs := attacking_force - factory.cyborgs,
            production := p }, rng')
      else
        (fs.set destination_factory
          { factory with cyborgs := factory.cyborgs - attacking_force }, rng)

/-- `Game.resolve_battle`, assembled from its three stages. -/
def resolve_battle (fs : List Factory) (destination_factory : Nat)
    (arriving : List Troop) (rng : List Nat) : List Factory × List Nat :=
  battleAgainstFactory fs destination_factory (eliminate (aggregate arriving)) rng

/-- `battles[dest].append(troop)`, creating the entry at the end of the dict
when the destination is new. -/
def addToBattles : List (Nat × List Troop) → Nat → Troop → List (Nat × List Troop)
  | [], d, t => [(d, [t])]
  | b :: rest, d, t =>
      if b.1 = d then (d, b.2 ++ [t]) :: rest else b :: addToBattles rest d t

/-- The first loop of `Game.update_troops`: decrement every troop's travel
time; troops reaching 0 are moved into the per-destination battle groups, the
others stay in flight (in order).  Returns (remaining troops, battles). -/
def collectBattles : List Troop → List (Nat × List Troop) →
    List Troop × List (Nat × List Troop)
  | [], bs => ([], bs)
  | t :: ts, bs =>
      let t' := { t with travel_time := t.travel_time - 1 }
      if t'.travel_time = 0 then
        collectBattles ts (addToBattles bs t'.destination_factory t')
      else
        let (rem, bs') := collectBattles ts bs
        (t' :: rem, bs')

/-- The second loop of `Game.update_troops`: resolve the battles in dict
(= first-arrival) order, threading the factory list and the random stream. -/
def resolveBattles (fs : List Factory) :
    List (Nat × List Troop) → List Nat → List Factory × List Nat
  | [], rng => (fs, rng)
  | (d, ts) :: rest, rng =>
      let (fs', rng') := resolve_battle fs d ts rng
      resolveBattles fs' rest rng'

/-- `Game.resolve_bomb`: destroy `max(10, cyborgs // 2)` cyborgs (Python
floor division, no floor at 0) and set the disable counter to 5. -/
def resolve_bomb (fs : List Factory) (b : Bomb) : List Factory :=
  let factory := fs.getD b.destination_factory default
  let destroyed_cyborgs := max 10 (Int.fdiv factory.cyborgs 2)
  fs.set b.destination_factory
    { factory with
      cyborgs := factory.cyborgs - destroyed_cyborgs,
      production_disabled := 5 }

/-- `Game.update_bombs`: decrement every bomb's travel time; bombs reaching 0
are resolved (in list order) and removed. -/
def update_bombs : List Bomb → List Factory → List Bomb × List Factory
  | [], fs => ([], fs)
  | b :: bs, fs =>
      let b' := { b with travel_time := b.travel_time - 1 }
      if b'.travel_time = 0 then
        update_bombs bs (resolve_bomb fs b')
      else
        let (bs', fs') := update_bombs bs fs
        (b' :: bs', fs')

/-- The production phase of `Game.update` for one factory: non-neutral,
non-disabled factories gain `production` cyborgs; otherwise a positive
disable counter is decremented (also for neutral factories). -/
def produce (f : Factory) : Factory :=
  if f.owner ≠ 0 ∧ f.production_disabled = 0 then
    { f with cyborgs := f.cyborgs + f.production }
  else if f.production_disabled > 0 then
    { f with production_disabled := f.production_disabled - 1 }
  else f

/-- `Game.update`: troop movement and battles, then bombs, then production,
in exactly the source's order.  Returns the new state and the rest of the
random stream. -/
def update (g : Game) (rng : List Nat) : Game × List Nat :=
  let (rem, battles) := collectBattles g.troops []
  let (fs1, rng1) := resolveBattles g.factories battles rng
  let (bombs', fs2) := update_bombs g.bombs fs1
  ({ factories := fs2.map produce,
     troops := rem,
     bombs := bombs',
     distances := g.distances }, rng1)

/-- A sequence of `update` calls, one random stream per call. -/
def updateN : Game → List (List Nat) → Game
  | g, [] => g
  | g, r :: rs => updateN (update g r).1 rs

/-- The neutral factories created by the loop of
`Game.initialize_factories`: owner 0, `randint 15 30` cyborgs, production 0,
not disabled. -/
def mkNeutralFactories : Nat → List Nat → List Factory × List Nat
  | 0, rng => ([], rng)
  | n + 1, rng =>
      let (c, rng1) := randint 15 30 rng
      let (rest, rng2) := mkNeutralFactories n rng1
      (⟨0, c, 0, 0⟩ :: rest, rng2)

/-- `Game.initialize_factories`: all factories neutral, then factories 0 and
1 are assigned to players 1 and 2 with fresh `randint 0 3` production. -/
def initialize_factories (factory_count : Nat) (rng : List Nat) :
    List Factory × List Nat :=
  let (fs, rng1) := mkNeutralFactories factory_count rng
  let (p1, rng2) := randint 0 3 rng1
  let f0 := fs.getD 0 default
  let fs' := fs.set 0 { f0 with owner := 1, production := p1 }
  let (p2, rng3) := randint 0 3 rng2
  let f1 := fs'.getD 1 default
  (fs'.set 1 { f1 with owner := 2, production := p2 }, rng3)

/-- `random.sample(range(n), 2)`: two distinct indices below `n` (for
`2 ≤ n`), derived from two stream values. -/
def sample2 (n : Nat) (rng : List Nat) : Nat × Nat × List Nat :=
  let f1 := rng.headD 0 % n
  let b0 := rng.tail.headD 0 % (n - 1)
  let f2 := if f1 ≤ b0 then b0 + 1 else b0
  (f1, f2, rng.tail.tail)

/-- The `while` loop of `Game.initialize_distances`, with explicit fuel:
while fewer than `2 * link_count` links have been collected, sample a pair;
if it is new (in either orientation), store a `randint 1 20` distance under
both orderings and record the link.  `none` when the fuel runs out. -/
def initDistancesLoop (factory_count link_count : Nat) :
    Nat → List ((Nat × Nat) × Int) → List (Nat × Nat) → List Nat →
    Option (List ((Nat × Nat) × Int) × List (Nat × Nat) × List Nat)
  | 0, dists, links, rng =>
      if links.length < 2 * link_count then none else some (dists, links, rng)
  | fuel + 1, dists, links, rng =>
      if links.length < 2 * link_count then
        let (f1, f2, rng1) := sample2 factory_count rng
        if (f1, f2) ∈ links ∨ (f2, f1) ∈ links then
          initDistancesLoop factory_count link_count fuel dists links rng1
        else
          let (d, rng2) := randint 1 20 rng1
          initDistancesLoop factory_count link_count fuel
            (dists ++ [((f1, f2), d), ((f2, f1), d)])
            (links ++ [(f1, f2)]) rng2
      else some (dists, links, rng)

/-- `Game.__init__`: factories first, then the link/distance loop (with
fuel; `none` when the loop would not have terminated within the fuel). -/
def initGame (factory_count link_count fuel : Nat) (rng : List Nat) :
    Option (Game × List Nat) :=
  let (fs, rng1) := initialize_factories factory_count rng
  match initDistancesLoop factory_count link_count fuel [] [] rng1 with
  | none => none
  | some (dists, _, rng2) =>
      some ({ factories := fs, troops := [], bombs := [], distances := dists }, rng2)

/-- A small concrete game used to instantiate the theorems below: factory 0
belongs to player 1, factory 1 to player 2, factory 2 is neutral; one stored
link between factories 0 and 1. -/
def gEx : Game :=
  { factories := [⟨1, 10, 2, 0⟩, ⟨2, 8, 1, 0⟩, ⟨0, 5, 0, 0⟩],
    troops := [], bombs := [], distances := [((0, 1), 4), ((1, 0), 4)] }

/-- The game produced by `initGame 3 0 0 [0, 0, 0, 0, 0]`. -/
def gInit3 : Game :=
  { factories := [⟨1, 15, 0, 0⟩, ⟨2, 15, 0, 0⟩, ⟨0, 15, 0, 0⟩],
    troops := [], bombs := [], distances := [] }

/-- `gInit3` after `send_bomb 1 0 2` (fallback travel time 20). -/
def gBomb3 : Game := { gInit3 with bombs := [⟨1, 0, 2, 20⟩] }

/-- `gBomb3` after twenty turns: the bomb has hit the neutral factory 2. -/
def gAfterBomb : Game := updateN gBomb3 (List.replicate 20 [])

/-- A game with a troop one turn away from conquering neutral factory 1. -/
def gConquest : Game :=
  { factories := [⟨1, 10, 0, 0⟩, ⟨0, 2, 0, 0⟩], troops := [⟨1, 5, 0, 1, 1⟩],
    bombs := [], distances := [] }

/-- A one-factory game right after a bomb hit: the spec's bombed factory
(12 cyborgs reduced to 2) with its disable counter at 5. -/
def gDisabled : Game :=
  { factories := [⟨1, 2, 3, 5⟩], troops := [], bombs := [], distances := [] }

/-- The order in which Python's insertion-ordered `combatants` dict lists
its keys: each owner at the position of its first occurrence, later
duplicates dropped (`seen` carries the keys already emitted). -/
def firstOccurrences (seen : List Int) : List Int → List Int
  | [] => []
  | x :: xs =>
      if x ∈ seen then firstOccurrences seen xs
      else x :: firstOccurrences (x :: seen) xs

/-- An exact tie: troops of players 2 and 1 (in that order in the active
troop collection) with equal strength 5 arrive together at a neutral factory
with negative cyborgs, so the tie's winner becomes the owner. -/
def gTie : Game :=
  { factories := [⟨0, -3, 0, 0⟩], troops := [⟨2, 5, 0, 0, 1⟩, ⟨1, 5, 0, 0, 1⟩],
    bombs := [], distances := [] }

/-- `gTie` with the two troops added in the opposite order. -/
def gTieSwapped : Game :=
  { factories := [⟨0, -3, 0, 0⟩], troops := [⟨1, 5, 0, 0, 1⟩, ⟨2, 5, 0, 0, 1⟩],
    bombs := [], distances := [] }

/-- The reachable game states: an initialized game (with at least the two
player factories), followed by any sequence of successful player commands
and turn updates. -/
inductive Reachable : Game → Prop
  | init (factory_count link_count fuel : Nat) (rng rng' : List Nat) (g : Game) :
      2 ≤ factory_count →
      initGame factory_count link_count fuel rng = some (g, rng') →
      Reachable g
  | sendTroop (g g' : Game) (o n : Int) (s d : Nat) :
      Reachable g → (o = 1 ∨ o = 2) →
      send_troop g o n s d = .ok g' → Reachable g'
  | sendBomb (g g' : Game) (o : Int) (s d : Nat) :
      Reachable g → (o = 1 ∨ o = 2) →
      send_bomb g o s d = .ok g' → Reachable g'
  | step (g : Game) (rng : List Nat) :
      Reachable g → Reachable (update g rng).1

/-! ## Generic helper lemmas -/

theorem getD_set_self {α : Type} [Inhabited α] (l : List α) (i : Nat) (a : α)
    (h : i < l.length) : (l.set i a).getD i default = a := by
  simp [List.getD, List.getElem?_set_self', List.getElem?_eq_getElem, h]

theorem getD_set_ne {α : Type} [Inhabited α] (l : List α) (i j : Nat) (a : α)
    (h : j ≠ i) : (l.set i a).getD j default = l.getD j default := by
  simp [List.getD, List.getElem?_set_ne (Ne.symm h)]

theorem getD_map_produce (l : List Factory) (i : Nat) (h : i < l.length) :
    (l.map produce).getD i default = produce (l.getD i default) := by
  simp [List.getD, List.getElem?_map, List.getElem?_eq_getElem, h]

theorem randint_mem (a b : Int) (rng : List Nat) (hb : 0 < b + 1 - a) :
    a ≤ (randint a b rng).1 ∧ (randint a b rng).1 ≤ b := by
  unfold randint
  constructor
  · have := Int.emod_nonneg ((rng.headD 0 : Int)) (by omega : b + 1 - a ≠ 0)
    simp only
    omega
  · have := Int.emod_lt_of_pos ((rng.headD 0 : Int)) hb
    simp only
    omega

theorem mem_insertDesc (x y : Int × Int) (l : List (Int × Int)) :
    y ∈ insertDesc x l ↔ y = x ∨ y ∈ l := by
  induction l with
  | nil => simp [insertDesc]
  | cons z zs ih =>
    simp only [insertDesc]
    split
    · simp only [List.mem_cons]
    · simp only [List.mem_cons, ih]
      tauto

theorem mem_sortDesc (y : Int × Int) (l : List (Int × Int)) :
    y ∈ sortDesc l ↔ y ∈ l := by
  induction l with
  | nil => simp [sortDesc]
  | cons x xs ih => simp [sortDesc, mem_insertDesc, ih]

theorem length_insertDesc (x : Int × Int) (l : List (Int × Int)) :
    (insertDesc x l).length = l.length + 1 := by
  induction l with
  | nil => rfl
  | cons z zs ih =>
    simp only [insertDesc]
    split
    · rfl
    · simp [ih]

theorem length_sortDesc (l : List (Int × Int)) :
    (sortDesc l).length = l.length := by
  induction l with
  | nil => rfl
  | cons x xs ih => simp [sortDesc, length_insertDesc, ih]

theorem argmaxC_cons (c : Int × Int) (cs : List (Int × Int)) (h : cs ≠ []) :
    argmaxC (c :: cs) = if (argmaxC cs).2 > c.2 then argmaxC cs else c := by
  cases cs with
  | nil => exact absurd rfl h
  | cons d ds => rfl

theorem argmaxC_le (l : List (Int × Int)) : ∀ y ∈ l, y.2 ≤ (argmaxC l).2 := by
  induction l with
  | nil => simp
  | cons c cs ih =>
    intro y hy
    cases cs with
    | nil =>
      rcases List.mem_cons.mp hy with h | h
      · subst h
        exact le_refl _
      · exact absurd h (List.not_mem_nil y)
    | cons d ds =>
      rw [argmaxC_cons c (d :: ds) (by simp)]
      rcases List.mem_cons.mp hy with h | h
      · subst h
        split
        · omega
        · exact le_refl _
      · have hy2 := ih y h
        split
        · exact hy2
        · omega

theorem argmaxC_mem (l : List (Int × Int)) (h : l ≠ []) : argmaxC l ∈ l := by
  induction l with
  | nil => exact absurd rfl h
  | cons c cs ih =>
    cases cs with
    | nil => simp [argmaxC]
    | cons d ds =>
      rw [argmaxC_cons c (d :: ds) (by simp)]
      split
      · exact List.mem_cons_of_mem _ (ih (by simp))
      · exact List.mem_cons_self _ _

theorem headD_sortDesc (l : List (Int × Int)) (h : l ≠ []) (d : Int × Int) :
    (sortDesc l).headD d = argmaxC l := by
  induction l with
  | nil => exact absurd rfl h
  | cons x xs ih =>
    cases xs with
    | nil => simp [sortDesc, insertDesc, argmaxC]
    | cons y ys =>
      have hne : sortDesc (y :: ys) ≠ [] := by
        intro hh
        have := length_sortDesc (y :: ys)
        rw [hh] at this
        simp at this
      obtain ⟨z, zs, hz⟩ := List.exists_cons_of_ne_nil hne
      have harg : z = argmaxC (y :: ys) := by
        have h1 := ih (by simp)
        rw [hz] at h1
        simpa using h1
      show (insertDesc x (sortDesc (y :: ys))).headD d = argmaxC (x :: y :: ys)
      rw [hz, argmaxC_cons x (y :: ys) (by simp), ← harg]
      simp only [insertDesc]
      split
      · next hle =>
        rw [if_neg (by omega)]
        rfl
      · next hgt =>
        rw [if_pos (by omega)]
        rfl

theorem foldl_sub (l : List (Int × Int)) (a : Int) :
    l.foldl (fun acc p => acc - p.2) a = a - (l.map Prod.snd).sum := by
  induction l generalizing a with
  | nil => simp
  | cons x xs ih =>
    simp only [List.foldl_cons, List.map_cons, List.sum_cons, ih]
    ring

theorem produce_pos (f : Factory) (h : 0 < f.production_disabled) :
    produce f = { f with production_disabled := f.production_disabled - 1 } := by
  unfold produce
  rw [if_neg (by omega : ¬(f.owner ≠ 0 ∧ f.production_disabled = 0)), if_pos h]

theorem produce_active (f : Factory) (h0 : f.owner ≠ 0)
    (hd : f.production_disabled = 0) :
    produce f = { f with cyborgs := f.cyborgs + f.production } := by
  unfold produce
  rw [if_pos ⟨h0, hd⟩]

theorem update_no_troops_bombs (g : Game) (r : List Nat)
    (ht : g.troops = []) (hb : g.bombs = []) :
    (update g r).1 =
      { factories := g.factories.map produce, troops := [], bombs := [],
        distances := g.distances } := by
  unfold update
  rw [ht, hb]
  rfl

theorem updateN_one (g : Game) (r : List Nat) : updateN g [r] = (update g r).1 := rfl

theorem updateN_append (g : Game) (xs ys : List (List Nat)) :
    updateN g (xs ++ ys) = updateN (updateN g xs) ys := by
  induction xs generalizing g with
  | nil => rfl
  | cons x xs ih =>
    simp only [List.cons_append, updateN]
    exact ih _

theorem updateN_disabled_countdown :
    ∀ (rs : List (List Nat)) (g : Game) (i : Nat),
      g.troops = [] → g.bombs = [] → i < g.factories.length →
      (rs.length : Int) ≤ (g.factories.getD i default).production_disabled →
      (updateN g rs).troops = [] ∧ (updateN g rs).bombs = [] ∧
      (updateN g rs).factories.length = g.factories.length ∧
      (updateN g rs).factories.getD i default =
        { g.factories.getD i default with
          production_disabled :=
            (g.factories.getD i default).production_disabled - rs.length }
  | [], g, i, ht, hb, hi, hlen => by
      refine ⟨ht, hb, rfl, ?_⟩
      simp only [updateN, List.length_nil, Nat.cast_zero, sub_zero]
  | r :: rs, g, i, ht, hb, hi, hlen => by
      have hg' := update_no_troops_bombs g r ht hb
      have hpos : 0 < (g.factories.getD i default).production_disabled := by
        simp only [List.length_cons] at hlen
        push_cast at hlen
        omega
      have hfac' : (update g r).1.factories.getD i default =
          { g.factories.getD i default with
            production_disabled :=
              (g.factories.getD i default).production_disabled - 1 } := by
        rw [hg']
        simp only
        rw [getD_map_produce _ _ hi, produce_pos _ hpos]
      have hlen' : (update g r).1.factories.length = g.factories.length := by
        rw [hg']
        simp
      have ih := updateN_disabled_countdown rs (update g r).1 i
        (by rw [hg']) (by rw [hg'])
        (by rw [hlen']; exact hi)
        (by
          rw [hfac']
          simp only [List.length_cons] at hlen
          push_cast at hlen ⊢
          omega)
      refine ⟨ih.1, ih.2.1, ih.2.2.1.trans hlen', ?_⟩
      show (updateN (update g r).1 rs).factories.getD i default = _
      rw [ih.2.2.2, hfac']
      simp only [List.length_cons]
      congr 1
      push_cast
      ring

/-! ## C9: production-disable timeline after a bomb -/

/-- C9: a non-neutral factory whose disable counter sits at 5 (as a bomb
leaves it), in a game with no further in-flight troops or bombs: during the
next up-to-5 turns it receives no production (cyborgs unchanged) while the
counter drops by one per turn, and on the 6th turn the counter is 0 and the
factory's production is added to its cyborgs again. -/
theorem bomb_disable_production_timeline (g : Game) (i : Nat)
    (ht : g.troops = []) (hb : g.bombs = [])
    (hi : i < g.factories.length)
    (how : (g.factories.getD i default).owner ≠ 0)
    (hd : (g.factories.getD i default).production_disabled = 5) :
    (∀ rs : List (List Nat), rs.length ≤ 5 →
      (updateN g rs).factories.getD i default =
        { g.factories.getD i default with
          production_disabled := 5 - (rs.length : Int) }) ∧
    (∀ r0 r1 r2 r3 r4 r5 : List Nat,
      (updateN g [r0, r1, r2, r3, r4, r5]).factories.getD i default =
        { g.factories.getD i default with
          cyborgs := (g.factories.getD i default).cyborgs +
            (g.factories.getD i default).production,
          production_disabled := 0 }) := by
  constructor
  · intro rs hrs
    have h := updateN_disabled_countdown rs g i ht hb hi
      (by rw [hd]; omega)
    rw [h.2.2.2, hd]
  · intro r0 r1 r2 r3 r4 r5
    have h5 := updateN_disabled_countdown [r0, r1, r2, r3, r4] g i ht hb hi
      (by rw [hd]; simp)
    have hfac : (updateN g [r0, r1, r2, r3, r4]).factories.getD i default =
        { g.factories.getD i default with production_disabled := 0 } := by
      rw [h5.2.2.2, hd]
      norm_num
    rw [show ([r0, r1, r2, r3, r4, r5] : List (List Nat)) =
          [r0, r1, r2, r3, r4] ++ [r5] from rfl, updateN_append, updateN_one]
    rw [update_no_troops_bombs _ r5 h5.1 h5.2.1]
    simp only
    rw [getD_map_produce _ _ (by rw [h5.2.2.1]; exact hi), hfac,
      produce_active { g.factories.getD i default with production_disabled := 0 }
        how rfl]

/-- Witness for C9: the bombed factory of `gDisabled` after 3 turns (counter
2, cyborgs untouched) and after 6 turns (counter 0, production 3 added). -/
theorem bomb_disable_production_timeline_witness :
    (updateN gDisabled [[], [], []]).factories.getD 0 default = ⟨1, 2, 3, 2⟩ ∧
    (updateN gDisabled [[], [], [], [], [], []]).factories.getD 0 default =
      ⟨1, 5, 3, 0⟩ := by
  have h := bomb_disable_production_timeline gDisabled 0 rfl rfl
    (by decide) (by decide) (by decide)
  exact ⟨(h.1 [[], [], []] (by decide)).trans (by decide),
    (h.2 [] [] [] [] [] []).trans (by decide)⟩

/-! ## C3: multi-owner battle resolution -/

/-- C3: with more than one distinct attacking owner, the resolver sorts the
per-owner aggregates descending (so every later aggregate is at most the
strongest), subtracts all the weaker aggregates from the strongest — which
amounts to subtracting their sum — floors at 0, and leaves exactly one
survivor; and on the spec's instance `{1 ↦ 7, 2 ↦ 10}` against a neutral
factory with 3 cyborgs the survivor is owner 2 with strength 3, which does
not conquer: the factory ends with 0 cyborgs, still neutral. -/
theorem multi_owner_battle_resolution :
    (∀ cs : List (Int × Int), 1 < cs.length →
      ∃ w wc rest, sortDesc cs = (w, wc) :: rest ∧
        (∀ r ∈ rest, r.2 ≤ wc) ∧
        eliminate cs = [(w, max 0 (wc - (rest.map Prod.snd).sum))]) ∧
    aggregate [⟨1, 7, 5, 0, 0⟩, ⟨2, 10, 5, 0, 0⟩] = [(1, 7), (2, 10)] ∧
    eliminate [(1, 7), (2, 10)] = [(2, 3)] ∧
    resolve_battle [⟨0, 3, 0, 0⟩] 0 [⟨1, 7, 5, 0, 0⟩, ⟨2, 10, 5, 0, 0⟩] [] =
      ([⟨0, 0, 0, 0⟩], []) := by
  refine ⟨?_, by decide, by decide, by decide⟩
  intro cs h
  have hcs : cs ≠ [] := by
    intro hnil
    rw [hnil] at h
    simp at h
  have hne : sortDesc cs ≠ [] := by
    intro hh
    have hlen := length_sortDesc cs
    rw [hh] at hlen
    simp at hlen
    omega
  obtain ⟨z, rest, hz⟩ := List.exists_cons_of_ne_nil hne
  obtain ⟨w, wc⟩ := z
  refine ⟨w, wc, rest, hz, ?_, ?_⟩
  · intro r hr
    have harg : (w, wc) = argmaxC cs := by
      have h1 := headD_sortDesc cs hcs (w, wc)
      rw [hz] at h1
      simpa using h1
    have hrm : r ∈ cs := (mem_sortDesc r cs).1 (by rw [hz]; exact List.mem_cons_of_mem _ hr)
    have h2 := argmaxC_le cs r hrm
    rw [← harg] at h2
    exact h2
  · unfold eliminate
    rw [if_pos h, hz]
    simp only
    rw [foldl_sub]

/-- Witness for C3: the general clause applied to the spec's two-owner
instance. -/
theorem multi_owner_battle_resolution_witness :
    sortDesc [(1, 7), (2, 10)] = [(2, 10), (1, 7)] ∧
    eliminate [(1, 7), (2, 10)] = [(2, max 0 (10 - 7))] := by
  obtain ⟨w, wc, rest, h1, _, h3⟩ :=
    multi_owner_battle_resolution.1 [(1, 7), (2, 10)] (by decide)
  have hw : sortDesc [((1 : Int), (7 : Int)), (2, 10)] = [(2, 10), (1, 7)] := by decide
  refine ⟨hw, ?_⟩
  rw [h3]
  rw [hw] at h1
  have : w = 2 ∧ wc = 10 ∧ rest = [(1, 7)] := by
    cases h1
    exact ⟨rfl, rfl, rfl⟩
  obtain ⟨hw2, hwc, hrest⟩ := this
  subst hw2
  subst hwc
  subst hrest
  rfl

/-- C5: a resolved bomb removes exactly `max 10 (cyborgs // 2)` cyborgs
(no floor at 0, so the count can become negative), unconditionally sets the
production-disabled counter to 5, leaves the owner (and production, and
every other factory) unchanged. -/
theorem bomb_resolution_effect (fs : List Factory) (b : Bomb)
    (h : b.destination_factory < fs.length) :
    (resolve_bomb fs b).getD b.destination_factory default =
      { (fs.getD b.destination_factory default) with
        cyborgs := (fs.getD b.destination_factory default).cyborgs -
          max 10 (Int.fdiv (fs.getD b.destination_factory default).cyborgs 2),
        production_disabled := 5 } ∧
    ∀ j, j ≠ b.destination_factory →
      (resolve_bomb fs b).getD j default = fs.getD j default := by
  unfold resolve_bomb
  exact ⟨getD_set_self _ _ _ h, fun j hj => getD_set_ne _ _ _ _ hj⟩

/-- Witness for C5: a bomb at a factory with 5 cyborgs and an already
positive disable counter: it loses `max 10 2 = 10` cyborgs (down to `-5`,
negative), and the counter is reset to 5. -/
theorem bomb_resolution_effect_witness :
    (resolve_bomb [⟨2, 5, 1, 3⟩] ⟨1, 0, 0, 0⟩).getD 0 default = ⟨2, -5, 1, 5⟩ :=
  ((bomb_resolution_effect [⟨2, 5, 1, 3⟩] ⟨1, 0, 0, 0⟩ (by decide)).1).trans (by decide)

/-! ## C6: ownership violation -/

/-- C6: a `send_troop` or `send_bomb` whose owner does not control the
source factory returns the `ValueError` and produces no new state (the
successful state is only built in the other branch, so nothing is mutated). -/
theorem command_ownership_violation (g : Game) (o n : Int) (s d : Nat)
    (h : (g.factories.getD s default).owner ≠ o) :
    send_troop g o n s d = .error "You do not own the source factory." ∧
    send_bomb g o s d = .error "You do not own the source factory." := by
  unfold send_troop send_bomb
  simp only [if_pos h]
  exact ⟨trivial, trivial⟩

/-- Witness for C6: player 2 commanding player 1's factory fails. -/
theorem command_ownership_violation_witness :
    send_troop gEx 2 4 0 1 = .error "You do not own the source factory." ∧
    send_bomb gEx 2 0 1 = .error "You do not own the source factory." :=
  command_ownership_violation gEx 2 4 0 1 (by decide)

/-! ## C8: successful send_troop -/

/-- C8: a `send_troop` by the controlling owner appends exactly one troop
whose travel time is the stored distance (or the fallback 20 when no
distance is stored) and decrements the source factory's cyborgs by exactly
`num_cyborgs`, with no floor; nothing else changes. -/
theorem send_troop_success_effect (g : Game) (o n : Int) (s d : Nat)
    (h : (g.factories.getD s default).owner = o) :
    send_troop g o n s d = .ok
      { g with
        troops := g.troops ++ [⟨o, n, s, d, distGet g.distances (s, d)⟩],
        factories := g.factories.set s
          { (g.factories.getD s default) with
            cyborgs := (g.factories.getD s default).cyborgs - n } } ∧
    (∀ dd, lookupD g.distances (s, d) = some dd → distGet g.distances (s, d) = dd) ∧
    (lookupD g.distances (s, d) = none → distGet g.distances (s, d) = 20) := by
  refine ⟨?_, fun dd hdd => ?_, fun hn => ?_⟩
  · unfold send_troop
    rw [if_neg (show ¬(g.factories.getD s default).owner ≠ o from fun hn => hn h)]
  · simp [distGet, hdd]
  · simp [distGet, hn]

/-- Witness for C8: sending 4 of factory 0's 10 cyborgs to factory 2 (no
stored link, so travel time 20). -/
theorem send_troop_success_effect_witness :
    send_troop gEx 1 4 0 2 = .ok
      { factories := [⟨1, 6, 2, 0⟩, ⟨2, 8, 1, 0⟩, ⟨0, 5, 0, 0⟩],
        troops := [⟨1, 4, 0, 2, 20⟩], bombs := [],
        distances := [((0, 1), 4), ((1, 0), 4)] } :=
  ((send_troop_success_effect gEx 1 4 0 2 (by decide)).1).trans (by rfl)

/-! ## C4: single net combatant against the factory -/

theorem battleAgainstFactory_single (fs : List Factory) (i : Nat) (o s : Int)
    (rng : List Nat) :
    (o = (fs.getD i default).owner →
      battleAgainstFactory fs i [(o, s)] rng =
        (fs.set i { (fs.getD i default) with
          cyborgs := (fs.getD i default).cyborgs + s }, rng)) ∧
    (o ≠ (fs.getD i default).owner → s > (fs.getD i default).cyborgs →
      battleAgainstFactory fs i [(o, s)] rng =
        (fs.set i { (fs.getD i default) with
          owner := o, cyborgs := s - (fs.getD i default).cyborgs,
          production := (randint 0 3 rng).1 }, (randint 0 3 rng).2) ∧
      0 ≤ (randint 0 3 rng).1 ∧ (randint 0 3 rng).1 ≤ 3) ∧
    (o ≠ (fs.getD i default).owner → s ≤ (fs.getD i default).cyborgs →
      battleAgainstFactory fs i [(o, s)] rng =
        (fs.set i { (fs.getD i default) with
          cyborgs := (fs.getD i default).cyborgs - s }, rng)) := by
  have hl : ∀ x : Int, lookupC [(o, s)] x = if o = x then some s else none := by
    intro x
    simp [lookupC]
  refine ⟨fun ho => ?_, fun ho hs => ⟨?_, randint_mem 0 3 rng (by norm_num)⟩,
    fun ho hs => ?_⟩
  · simp only [battleAgainstFactory, hl, if_pos ho]
  · simp only [battleAgainstFactory, hl, if_neg ho, maxV, argmaxC]
    rw [if_pos hs]
  · simp only [battleAgainstFactory, hl, if_neg ho, maxV, argmaxC]
    rw [if_neg (not_lt.mpr hs)]

/-- C4: one net combatant `(o, s)` against the factory at `i`: when `o` is
the factory owner, the garrison is reinforced by `s`; when `o` differs and
`s` exceeds the garrison, the factory is conquered (owner `o`, cyborgs
`s - previous`, fresh production in `[0, 3]`, disable counter untouched);
otherwise the garrison just loses `s`. -/
theorem single_combatant_battle_outcome (fs : List Factory) (i : Nat) (o s : Int)
    (rng : List Nat) :
    (o = (fs.getD i default).owner →
      battleAgainstFactory fs i [(o, s)] rng =
        (fs.set i { (fs.getD i default) with
          cyborgs := (fs.getD i default).cyborgs + s }, rng)) ∧
    (o ≠ (fs.getD i default).owner → s > (fs.getD i default).cyborgs →
      battleAgainstFactory fs i [(o, s)] rng =
        (fs.set i { (fs.getD i default) with
          owner := o, cyborgs := s - (fs.getD i default).cyborgs,
          production := (randint 0 3 rng).1 }, (randint 0 3 rng).2) ∧
      0 ≤ (randint 0 3 rng).1 ∧ (randint 0 3 rng).1 ≤ 3) ∧
    (o ≠ (fs.getD i default).owner → s ≤ (fs.getD i default).cyborgs →
      battleAgainstFactory fs i [(o, s)] rng =
        (fs.set i { (fs.getD i default) with
          cyborgs := (fs.getD i default).cyborgs - s }, rng)) :=
  battleAgainstFactory_single fs i o s rng

/-- Witness for C4: reinforcement (6 + 4 = 10), the spec's single-attacker
conquest instance (neutral, 8 defenders, 12 attackers, random production 3),
and the spec's repelled instance (10 defenders, 5 attackers). -/
theorem single_combatant_battle_outcome_witness :
    battleAgainstFactory [⟨1, 6, 2, 0⟩] 0 [(1, 4)] [] = ([⟨1, 10, 2, 0⟩], []) ∧
    battleAgainstFactory [⟨0, 8, 0, 0⟩] 0 [(1, 12)] [7] = ([⟨1, 4, 3, 0⟩], []) ∧
    battleAgainstFactory [⟨2, 10, 1, 0⟩] 0 [(1, 5)] [] = ([⟨2, 5, 1, 0⟩], []) := by
  refine ⟨?_, ?_, ?_⟩
  · exact ((single_combatant_battle_outcome [⟨1, 6, 2, 0⟩] 0 1 4 []).1
      (by decide)).trans (by decide)
  · exact (((single_combatant_battle_outcome [⟨0, 8, 0, 0⟩] 0 1 12 [7]).2.1
      (by decide) (by decide)).1).trans (by decide)
  · exact ((single_combatant_battle_outcome [⟨2, 10, 1, 0⟩] 0 1 5 []).2.2
      (by decide) (by decide)).trans (by decide)

/-! ## C1: conquest and same-turn production -/

theorem update_single_arrival (fs : List Factory) (o n : Int) (sf df : Nat)
    (dists : List ((Nat × Nat) × Int)) (rng : List Nat) :
    (update ⟨fs, [⟨o, n, sf, df, 1⟩], [], dists⟩ rng).1 =
      ⟨((battleAgainstFactory fs df [(o, n)] rng).1).map produce, [], [], dists⟩ := by
  unfold update
  simp [collectBattles, addToBattles, resolveBattles, resolve_battle, update_bombs,
    aggregate, addCombatant, eliminate]

/-- C1 (amended): a factory conquered during the battle-resolution phase of
`update` DOES have its new production rate added to its cyborgs during the
production phase of the same call, whenever its disable counter is 0 and no
bomb hits it that turn — the production phase runs after battle resolution,
so the spec's claimed one-turn delay does not hold. -/
theorem conquest_receives_production_same_turn (fs : List Factory) (o n : Int)
    (sf df : Nat) (dists : List ((Nat × Nat) × Int)) (rng : List Nat)
    (hdf : df < fs.length)
    (ho0 : o ≠ 0)
    (how : o ≠ (fs.getD df default).owner)
    (hstr : n > (fs.getD df default).cyborgs)
    (hdis : (fs.getD df default).production_disabled = 0) :
    (update ⟨fs, [⟨o, n, sf, df, 1⟩], [], dists⟩ rng).1.factories.getD df default =
      { owner := o,
        cyborgs := n - (fs.getD df default).cyborgs + (randint 0 3 rng).1,
        production := (randint 0 3 rng).1,
        production_disabled := 0 } := by
  rw [update_single_arrival]
  simp only
  have hb := (battleAgainstFactory_single fs df o n rng).2.1 how hstr
  rw [hb.1]
  simp only
  rw [getD_map_produce _ _ (by simpa using hdf), getD_set_self _ _ _ hdf,
    produce_active
      { (fs.getD df default) with
        owner := o, cyborgs := n - (fs.getD df default).cyborgs,
        production := (randint 0 3 rng).1 } ho0 hdis]
  rw [hdis]

/-- Counterexample to C1 as stated: in `gConquest`, neutral factory 1
(2 cyborgs) is conquered by a 5-cyborg troop of player 1 that arrives this
turn; with random stream `[3]` the fresh production is 3, and the factory
ends the very same `update` call with `6 = (5 - 2) + 3` cyborgs — not the
`3` the claimed production delay would give. -/
theorem conquest_production_same_turn_cex :
    (gConquest.factories.getD 1 default).owner = 0 ∧
    (gConquest.factories.getD 1 default).cyborgs = 2 ∧
    gConquest.troops = [⟨1, 5, 0, 1, 1⟩] ∧
    ((update gConquest [3]).1.factories.getD 1 default).owner = 1 ∧
    ((update gConquest [3]).1.factories.getD 1 default).production = 3 ∧
    ((update gConquest [3]).1.factories.getD 1 default).cyborgs = 6 ∧
    ((update gConquest [3]).1.factories.getD 1 default).cyborgs ≠ 5 - 2 := by
  decide

/-! ## Toward C2: the neutral-production invariant -/

theorem getD_mem {α : Type} [Inhabited α] (l : List α) (i : Nat)
    (h : i < l.length) : l.getD i default ∈ l := by
  rw [List.getD_eq_getElem l default h]
  exact List.getElem_mem h

theorem getD_prod_zero (fs : List Factory)
    (hinv : ∀ f ∈ fs, f.owner = 0 → f.production = 0) (i : Nat) :
    (fs.getD i default).owner = 0 → (fs.getD i default).production = 0 := by
  by_cases h : i < fs.length
  · exact hinv _ (getD_mem fs i h)
  · intro _
    have hdef : fs.getD i default = default := by
      simp [List.getD, List.getElem?_eq_none (not_lt.mp h)]
    rw [hdef]
    rfl

theorem addToBattles_owner (bs : List (Nat × List Troop)) (dk : Nat) (t : Troop)
    (hbs : ∀ p ∈ bs, ∀ t' ∈ p.2, t'.owner ≠ 0) (ht : t.owner ≠ 0) :
    ∀ p ∈ addToBattles bs dk t, ∀ t' ∈ p.2, t'.owner ≠ 0 := by
  induction bs with
  | nil =>
    intro p hp t' ht'
    have hp' : p = (dk, [t]) := by simpa [addToBattles] using hp
    rw [hp'] at ht'
    have : t' = t := by simpa using ht'
    rw [this]
    exact ht
  | cons b rest ih =>
    intro p hp t' ht'
    simp only [addToBattles] at hp
    split at hp
    · rcases List.mem_cons.mp hp with hp' | hp'
      · rw [hp'] at ht'
        rcases List.mem_append.mp ht' with h2 | h2
        · exact hbs b (List.mem_cons_self _ _) t' h2
        · have : t' = t := by simpa using h2
          rw [this]
          exact ht
      · exact hbs p (List.mem_cons_of_mem _ hp') t' ht'
    · rcases List.mem_cons.mp hp with hp' | hp'
      · rw [hp'] at ht'
        exact hbs b (List.mem_cons_self _ _) t' ht'
      · exact ih (fun q hq => hbs q (List.mem_cons_of_mem _ hq)) p hp' t' ht'

theorem addToBattles_nonempty (bs : List (Nat × List Troop)) (dk : Nat) (t : Troop)
    (hbs : ∀ p ∈ bs, p.2 ≠ []) :
    ∀ p ∈ addToBattles bs dk t, p.2 ≠ [] := by
  induction bs with
  | nil =>
    intro p hp
    have hp' : p = (dk, [t]) := by simpa [addToBattles] using hp
    rw [hp']
    simp
  | cons b rest ih =>
    intro p hp
    simp only [addToBattles] at hp
    split at hp
    · rcases List.mem_cons.mp hp with hp' | hp'
      · rw [hp']
        simp
      · exact hbs p (List.mem_cons_of_mem _ hp')
    · rcases List.mem_cons.mp hp with hp' | hp'
      · rw [hp']
        exact hbs b (List.mem_cons_self _ _)
      · exact ih (fun q hq => hbs q (List.mem_cons_of_mem _ hq)) p hp'

theorem collectBattles_spec :
    ∀ (ts : List Troop) (bs : List (Nat × List Troop)),
      (∀ t ∈ ts, t.owner ≠ 0) →
      (∀ p ∈ bs, ∀ t' ∈ p.2, t'.owner ≠ 0) →
      (∀ p ∈ bs, p.2 ≠ []) →
      (∀ t ∈ (collectBattles ts bs).1, t.owner ≠ 0) ∧
      (∀ p ∈ (collectBattles ts bs).2, ∀ t' ∈ p.2, t'.owner ≠ 0) ∧
      (∀ p ∈ (collectBattles ts bs).2, p.2 ≠ [])
  | [], bs, hts, hbs, hbne => ⟨by simp [collectBattles], by
      simpa [collectBattles] using hbs, by simpa [collectBattles] using hbne⟩
  | t :: ts, bs, hts, hbs, hbne => by
    have ht : t.owner ≠ 0 := hts t (List.mem_cons_self _ _)
    have hts' : ∀ t' ∈ ts, t'.owner ≠ 0 := fun t' h => hts t' (List.mem_cons_of_mem _ h)
    simp only [collectBattles]
    split
    · exact collectBattles_spec ts _ hts'
        (addToBattles_owner bs _ _ hbs ht)
        (addToBattles_nonempty bs _ _ hbne)
    · rcases hcb : collectBattles ts bs with ⟨rem, bs2⟩
      have H := collectBattles_spec ts bs hts' hbs hbne
      rw [hcb] at H
      simp only
      refine ⟨?_, H.2.1, H.2.2⟩
      intro t' ht'
      rcases List.mem_cons.mp ht' with h1 | h1
      · rw [h1]
        exact ht
      · exact H.1 t' h1

theorem addCombatant_ne_nil (cs : List (Int × Int)) (o n : Int) :
    addCombatant cs o n ≠ [] := by
  cases cs with
  | nil => simp [addCombatant]
  | cons c rest =>
    simp only [addCombatant]
    split <;> simp

theorem addCombatant_keys (cs : List (Int × Int)) (o n : Int) :
    ∀ c ∈ addCombatant cs o n, c.1 = o ∨ ∃ c' ∈ cs, c.1 = c'.1 := by
  induction cs with
  | nil =>
    intro c hc
    have : c = (o, n) := by simpa [addCombatant] using hc
    rw [this]
    exact Or.inl rfl
  | cons b rest ih =>
    intro c hc
    simp only [addCombatant] at hc
    split at hc
    · rcases List.mem_cons.mp hc with h1 | h1
      · rw [h1]
        exact Or.inl rfl
      · exact Or.inr ⟨c, List.mem_cons_of_mem _ h1, rfl⟩
    · rcases List.mem_cons.mp hc with h1 | h1
      · exact Or.inr ⟨b, List.mem_cons_self _ _, by rw [h1]⟩
      · rcases ih c h1 with h2 | ⟨c', hc', h2⟩
        · exact Or.inl h2
        · exact Or.inr ⟨c', List.mem_cons_of_mem _ hc', h2⟩

theorem foldl_addCombatant_owners :
    ∀ (ts : List Troop) (cs : List (Int × Int)),
      (∀ c ∈ cs, c.1 ≠ 0) → (∀ t ∈ ts, t.owner ≠ 0) →
      ∀ c ∈ ts.foldl (fun cs t => addCombatant cs t.owner t.num_cyborgs) cs, c.1 ≠ 0
  | [], cs, hcs, _ => by simpa using hcs
  | t :: ts, cs, hcs, hts => by
    simp only [List.foldl_cons]
    refine foldl_addCombatant_owners ts _ ?_
      (fun t' h => hts t' (List.mem_cons_of_mem _ h))
    intro c hc
    rcases addCombatant_keys cs t.owner t.num_cyborgs c hc with h1 | ⟨c', hc', h1⟩
    · rw [h1]
      exact hts t (List.mem_cons_self _ _)
    · rw [h1]
      exact hcs c' hc'

theorem foldl_addCombatant_ne_nil :
    ∀ (ts : List Troop) (cs : List (Int × Int)), cs ≠ [] →
      ts.foldl (fun cs t => addCombatant cs t.owner t.num_cyborgs) cs ≠ []
  | [], cs, hcs => by simpa using hcs
  | t :: ts, cs, hcs => by
    simp only [List.foldl_cons]
    exact foldl_addCombatant_ne_nil ts _ (addCombatant_ne_nil cs _ _)

theorem aggregate_owners (ts : List Troop) (h : ∀ t ∈ ts, t.owner ≠ 0) :
    ∀ c ∈ aggregate ts, c.1 ≠ 0 :=
  foldl_addCombatant_owners ts [] (by simp) h

theorem aggregate_ne_nil (ts : List Troop) (h : ts ≠ []) : aggregate ts ≠ [] := by
  cases ts with
  | nil => exact absurd rfl h
  | cons t ts =>
    unfold aggregate
    simp only [List.foldl_cons]
    exact foldl_addCombatant_ne_nil ts _ (addCombatant_ne_nil [] _ _)

theorem eliminate_keys (cs : List (Int × Int)) (c : Int × Int)
    (hc : c ∈ eliminate cs) : ∃ c' ∈ cs, c.1 = c'.1 := by
  by_cases h : 1 < cs.length
  · unfold eliminate at hc
    rw [if_pos h] at hc
    rcases hs : sortDesc cs with _ | ⟨⟨w, wc⟩, rest⟩
    · rw [hs] at hc
      simp at hc
    · rw [hs] at hc
      have hc' : c = (w, max 0 (rest.foldl (fun acc p => acc - p.2) wc)) := by
        simpa using hc
      refine ⟨(w, wc), (mem_sortDesc _ _).1 (hs ▸ List.mem_cons_self _ _), ?_⟩
      rw [hc']
  · unfold eliminate at hc
    rw [if_neg h] at hc
    exact ⟨c, hc, rfl⟩

theorem eliminate_ne_nil (cs : List (Int × Int)) (h : cs ≠ []) :
    eliminate cs ≠ [] := by
  by_cases h1 : 1 < cs.length
  · unfold eliminate
    rw [if_pos h1]
    rcases hs : sortDesc cs with _ | ⟨⟨w, wc⟩, rest⟩
    · have := length_sortDesc cs
      rw [hs] at this
      simp at this
      omega
    · simp
  · unfold eliminate
    rw [if_neg h1]
    exact h

theorem battle_preserves_prod (fs : List Factory) (dest : Nat)
    (cs : List (Int × Int)) (rng : List Nat)
    (hcs : ∀ c ∈ cs, c.1 ≠ 0) (hne : cs ≠ [])
    (hinv : ∀ f ∈ fs, f.owner = 0 → f.production = 0) :
    ∀ f ∈ (battleAgainstFactory fs dest cs rng).1, f.owner = 0 → f.production = 0 := by
  intro f hf
  simp only [battleAgainstFactory] at hf
  cases hl : lookupC cs (fs.getD dest default).owner with
  | some s =>
    rw [hl] at hf
    simp only at hf
    rcases List.mem_or_eq_of_mem_set hf with h1 | h1
    · exact hinv f h1
    · rw [h1]
      exact getD_prod_zero fs hinv dest
  | none =>
    rw [hl] at hf
    simp only at hf
    split at hf
    · rcases List.mem_or_eq_of_mem_set hf with h1 | h1
      · exact hinv f h1
      · rw [h1]
        intro h0
        exact absurd h0 (hcs (argmaxC cs) (argmaxC_mem cs hne))
    · rcases List.mem_or_eq_of_mem_set hf with h1 | h1
      · exact hinv f h1
      · rw [h1]
        exact getD_prod_zero fs hinv dest

theorem resolve_battle_preserves (fs : List Factory) (dest : Nat)
    (arr : List Troop) (rng : List Nat) (hne : arr ≠ [])
    (how : ∀ t ∈ arr, t.owner ≠ 0)
    (hinv : ∀ f ∈ fs, f.owner = 0 → f.production = 0) :
    ∀ f ∈ (resolve_battle fs dest arr rng).1, f.owner = 0 → f.production = 0 := by
  refine battle_preserves_prod fs dest _ rng ?_
    (eliminate_ne_nil _ (aggregate_ne_nil arr hne)) hinv
  intro c hc
  obtain ⟨c', hc', heq⟩ := eliminate_keys _ c hc
  rw [heq]
  exact aggregate_owners arr how c' hc'

theorem resolveBattles_preserves :
    ∀ (battles : List (Nat × List Troop)) (fs : List Factory) (rng : List Nat),
      (∀ p ∈ battles, p.2 ≠ []) →
      (∀ p ∈ battles, ∀ t ∈ p.2, t.owner ≠ 0) →
      (∀ f ∈ fs, f.owner = 0 → f.production = 0) →
      ∀ f ∈ (resolveBattles fs battles rng).1, f.owner = 0 → f.production = 0
  | [], fs, rng, _, _, hinv => by simpa [resolveBattles] using hinv
  | (d, ts) :: rest, fs, rng, hbne, hbo, hinv => by
    simp only [resolveBattles]
    rcases hrb : resolve_battle fs d ts rng with ⟨fs', rng'⟩
    simp only
    refine resolveBattles_preserves rest fs' rng'
      (fun p hp => hbne p (List.mem_cons_of_mem _ hp))
      (fun p hp => hbo p (List.mem_cons_of_mem _ hp)) ?_
    have H := resolve_battle_preserves fs d ts rng
      (hbne (d, ts) (List.mem_cons_self _ _))
      (hbo (d, ts) (List.mem_cons_self _ _)) hinv
    rw [hrb] at H
    exact H

theorem resolve_bomb_preserves (fs : List Factory) (b : Bomb)
    (hinv : ∀ f ∈ fs, f.owner = 0 → f.production = 0) :
    ∀ f ∈ resolve_bomb fs b, f.owner = 0 → f.production = 0 := by
  intro f hf
  unfold resolve_bomb at hf
  rcases List.mem_or_eq_of_mem_set hf with h1 | h1
  · exact hinv f h1
  · rw [h1]
    exact getD_prod_zero fs hinv b.destination_factory

theorem update_bombs_preserves :
    ∀ (bombs : List Bomb) (fs : List Factory),
      (∀ f ∈ fs, f.owner = 0 → f.production = 0) →
      ∀ f ∈ (update_bombs bombs fs).2, f.owner = 0 → f.production = 0
  | [], fs, hinv => by simpa [update_bombs] using hinv
  | b :: bs, fs, hinv => by
    simp only [update_bombs]
    split
    · exact update_bombs_preserves bs _ (resolve_bomb_preserves fs _ hinv)
    · rcases hub : update_bombs bs fs with ⟨bs', fs'⟩
      have H := update_bombs_preserves bs fs hinv
      rw [hub] at H
      simpa using H

theorem produce_owner_production (f : Factory) :
    (produce f).owner = f.owner ∧ (produce f).production = f.production := by
  unfold produce
  split
  · exact ⟨rfl, rfl⟩
  · split
    · exact ⟨rfl, rfl⟩
    · exact ⟨rfl, rfl⟩

theorem map_produce_preserves (fs : List Factory)
    (hinv : ∀ f ∈ fs, f.owner = 0 → f.production = 0) :
    ∀ f ∈ fs.map produce, f.owner = 0 → f.production = 0 := by
  intro f hf h0
  obtain ⟨f0, hf0, hmap⟩ := List.mem_map.mp hf
  have hop := produce_owner_production f0
  rw [← hmap] at h0 ⊢
  rw [hop.1] at h0
  rw [hop.2]
  exact hinv f0 hf0 h0

theorem update_preserves (g : Game) (rng : List Nat)
    (hinv : ∀ f ∈ g.factories, f.owner = 0 → f.production = 0)
    (htr : ∀ t ∈ g.troops, t.owner ≠ 0) :
    (∀ f ∈ (update g rng).1.factories, f.owner = 0 → f.production = 0) ∧
    (∀ t ∈ (update g rng).1.troops, t.owner ≠ 0) := by
  rcases hcb : collectBattles g.troops [] with ⟨rem, battles⟩
  rcases hrb : resolveBattles g.factories battles rng with ⟨fs1, rng1⟩
  rcases hub : update_bombs g.bombs fs1 with ⟨bombs2, fs2⟩
  have hupd : (update g rng).1 = ⟨fs2.map produce, rem, bombs2, g.distances⟩ := by
    unfold update
    rw [hcb]
    simp only
    rw [hrb]
    simp only
    rw [hub]
  rw [hupd]
  have hcbs := collectBattles_spec g.troops [] htr (by simp) (by simp)
  rw [hcb] at hcbs
  constructor
  · have hfs1 : ∀ f ∈ fs1, f.owner = 0 → f.production = 0 := by
      have H := resolveBattles_preserves battles g.factories rng
        hcbs.2.2 hcbs.2.1 hinv
      rw [hrb] at H
      exact H
    have hfs2 : ∀ f ∈ fs2, f.owner = 0 → f.production = 0 := by
      have H := update_bombs_preserves g.bombs fs1 hfs1
      rw [hub] at H
      exact H
    exact map_produce_preserves fs2 hfs2
  · exact hcbs.1

theorem send_troop_ok_eq (g : Game) (o n : Int) (s d : Nat) (g' : Game)
    (h : send_troop g o n s d = .ok g') :
    g' = { g with
      troops := g.troops ++ [⟨o, n, s, d, distGet g.distances (s, d)⟩],
      factories := g.factories.set s
        { (g.factories.getD s default) with
          cyborgs := (g.factories.getD s default).cyborgs - n } } := by
  unfold send_troop at h
  by_cases hcond : (g.factories.getD s default).owner ≠ o
  · rw [if_pos hcond] at h
    cases h
  · rw [if_neg hcond] at h
    simpa using h.symm

theorem send_bomb_ok_eq (g : Game) (o : Int) (s d : Nat) (g' : Game)
    (h : send_bomb g o s d = .ok g') :
    g' = { g with
      bombs := g.bombs ++ [⟨o, s, d, distGet g.distances (s, d)⟩] } := by
  unfold send_bomb at h
  by_cases hcond : (g.factories.getD s default).owner ≠ o
  · rw [if_pos hcond] at h
    cases h
  · rw [if_neg hcond] at h
    simpa using h.symm

theorem mkNeutral_prod :
    ∀ (n : Nat) (rng : List Nat), ∀ f ∈ (mkNeutralFactories n rng).1,
      f.production = 0
  | 0, rng => by simp [mkNeutralFactories]
  | n + 1, rng => by
    intro f hf
    simp only [mkNeutralFactories] at hf
    rcases hmk : mkNeutralFactories n (randint 15 30 rng).2 with ⟨rest, rng2⟩
    rw [hmk] at hf
    simp only at hf
    rcases List.mem_cons.mp hf with h1 | h1
    · rw [h1]
    · have H := mkNeutral_prod n (randint 15 30 rng).2 f
      rw [hmk] at H
      exact H h1

theorem initialize_factories_prod (fc : Nat) (rng : List Nat) :
    ∀ f ∈ (initialize_factories fc rng).1, f.owner = 0 → f.production = 0 := by
  unfold initialize_factories
  rcases hmk : mkNeutralFactories fc rng with ⟨fs, rng1⟩
  simp only
  intro f hf how
  rcases List.mem_or_eq_of_mem_set hf with hf1 | hf1
  · rcases List.mem_or_eq_of_mem_set hf1 with hf2 | hf2
    · have H := mkNeutral_prod fc rng f
      rw [hmk] at H
      exact H hf2
    · rw [hf2] at how
      exact absurd how (by norm_num)
  · rw [hf1] at how
    exact absurd how (by norm_num)

theorem reachable_inv (g : Game) (h : Reachable g) :
    (∀ f ∈ g.factories, f.owner = 0 → f.production = 0) ∧
    (∀ t ∈ g.troops, t.owner ≠ 0) := by
  induction h with
  | init fc lc fuel rng rng' g0 hfc hinit =>
    unfold initGame at hinit
    rcases hif : initialize_factories fc rng with ⟨fs, rng1⟩
    rw [hif] at hinit
    simp only at hinit
    rcases hloop : initDistancesLoop fc lc fuel [] [] rng1 with _ | ⟨dd, ll, rr⟩
    · rw [hloop] at hinit
      cases hinit
    · rw [hloop] at hinit
      simp only at hinit
      injection hinit with h'
      have hg := congrArg Prod.fst h'
      simp only at hg
      rw [← hg]
      refine ⟨?_, by simp⟩
      have H := initialize_factories_prod fc rng
      rw [hif] at H
      simpa using H
  | sendTroop g0 g' o n s d _ ho hok ih =>
    rw [send_troop_ok_eq g0 o n s d g' hok]
    constructor
    · intro f hf h0
      rcases List.mem_or_eq_of_mem_set hf with h1 | h1
      · exact ih.1 f h1 h0
      · rw [h1] at h0 ⊢
        exact getD_prod_zero g0.factories ih.1 s h0
    · intro t ht
      rcases List.mem_append.mp ht with h1 | h1
      · exact ih.2 t h1
      · have : t = ⟨o, n, s, d, distGet g0.distances (s, d)⟩ := by simpa using h1
        rw [this]
        rcases ho with h2 | h2 <;> rw [h2] <;> norm_num
  | sendBomb g0 g' o s d _ ho hok ih =>
    rw [send_bomb_ok_eq g0 o s d g' hok]
    exact ih
  | step g0 rng _ ih =>
    exact update_preserves g0 rng ih.1 ih.2

theorem reachable_updateN (g : Game) (h : Reachable g) :
    ∀ rs : List (List Nat), Reachable (updateN g rs) := by
  intro rs
  induction rs generalizing g with
  | nil => exact h
  | cons r rs ih => exact ih (update g r).1 (Reachable.step g r h)

/-! ## C2: the neutral-factory invariant -/

/-- C2 (amended): in every reachable game state, every neutral factory has
production 0.  (The other half of the original claim — that neutral
factories are never disabled — is refuted by `neutral_disabled_reachable_cex`:
a bomb sent at a neutral factory sets its disable counter.) -/
theorem reachable_neutral_production_zero (g : Game) (h : Reachable g) :
    ∀ f ∈ g.factories, f.owner = 0 → f.production = 0 :=
  (reachable_inv g h).1

/-- Witness for the amended C2: the neutral factory 2 of the freshly
initialized `gInit3`. -/
theorem reachable_neutral_production_zero_witness :
    (⟨0, 15, 0, 0⟩ : Factory).production = 0 :=
  reachable_neutral_production_zero gInit3
    (Reachable.init 3 0 0 [0, 0, 0, 0, 0] [] gInit3 (by norm_num) (by rfl))
    ⟨0, 15, 0, 0⟩ (by decide) rfl

/-- Counterexample to C2 as stated: the reachable state `gAfterBomb`
(initialize 3 factories with no links, player 1 bombs the neutral factory 2,
then 20 turns pass) has a neutral factory whose production-disabled counter
is 4 — neutral factories can be disabled. -/
theorem neutral_disabled_reachable_cex :
    Reachable gAfterBomb ∧
    (gAfterBomb.factories.getD 2 default).owner = 0 ∧
    (gAfterBomb.factories.getD 2 default).production_disabled ≠ 0 := by
  refine ⟨?_, by decide, by decide⟩
  have h0 : Reachable gInit3 :=
    Reachable.init 3 0 0 [0, 0, 0, 0, 0] [] gInit3 (by norm_num) (by rfl)
  have h1 : Reachable gBomb3 :=
    Reachable.sendBomb gInit3 gBomb3 1 0 2 h0 (Or.inl rfl) (by rfl)
  exact reachable_updateN gBomb3 h1 (List.replicate 20 [])

/-! ## C7: the link/distance initialization loop -/

theorem bounds_extend (dists : List ((Nat × Nat) × Int)) (f1 f2 : Nat) (d : Int)
    (hd : 1 ≤ d ∧ d ≤ 20) (hb : ∀ e ∈ dists, 1 ≤ e.2 ∧ e.2 ≤ 20) :
    ∀ e ∈ dists ++ [((f1, f2), d), ((f2, f1), d)], 1 ≤ e.2 ∧ e.2 ≤ 20 := by
  intro e he
  rcases List.mem_append.mp he with he' | he'
  · exact hb e he'
  · have he'' : e = ((f1, f2), d) ∨ e = ((f2, f1), d) := by simpa using he'
    rcases he'' with he3 | he3 <;> rw [he3] <;> exact hd

theorem sym_extend (dists : List ((Nat × Nat) × Int)) (f1 f2 : Nat) (d : Int)
    (hsym : ∀ a b dd, ((a, b), dd) ∈ dists → ((b, a), dd) ∈ dists) :
    ∀ a b dd, ((a, b), dd) ∈ dists ++ [((f1, f2), d), ((f2, f1), d)] →
      ((b, a), dd) ∈ dists ++ [((f1, f2), d), ((f2, f1), d)] := by
  intro a b dd hm
  rcases List.mem_append.mp hm with hm' | hm'
  · exact List.mem_append_left _ (hsym a b dd hm')
  · have hm'' : ((a, b), dd) = ((f1, f2), d) ∨ ((a, b), dd) = ((f2, f1), d) := by
      simpa using hm'
    rcases hm'' with he | he
    · have ha : (a = f1 ∧ b = f2) ∧ dd = d := by simpa [Prod.ext_iff] using he
      refine List.mem_append_right _ ?_
      simp [ha.1.1, ha.1.2, ha.2]
    · have ha : (a = f2 ∧ b = f1) ∧ dd = d := by simpa [Prod.ext_iff] using he
      refine List.mem_append_right _ ?_
      simp [ha.1.1, ha.1.2, ha.2]

theorem keys_extend (dists : List ((Nat × Nat) × Int)) (links : List (Nat × Nat))
    (f1 f2 : Nat) (d : Int)
    (hk : ∀ k : Nat × Nat, k ∈ dists.map Prod.fst ↔ k ∈ links ∨ (k.2, k.1) ∈ links) :
    ∀ k : Nat × Nat, k ∈ (dists ++ [((f1, f2), d), ((f2, f1), d)]).map Prod.fst ↔
      k ∈ links ++ [(f1, f2)] ∨ (k.2, k.1) ∈ links ++ [(f1, f2)] := by
  rintro ⟨k1, k2⟩
  have hkk := hk (k1, k2)
  simp at hkk ⊢
  tauto

theorem pairwise_extend (links : List (Nat × Nat)) (f1 f2 : Nat)
    (hm1 : (f1, f2) ∉ links) (hm2 : (f2, f1) ∉ links)
    (hp : links.Pairwise (fun p q => p ≠ q ∧ p ≠ (q.2, q.1))) :
    (links ++ [(f1, f2)]).Pairwise (fun p q => p ≠ q ∧ p ≠ (q.2, q.1)) := by
  rw [List.pairwise_append]
  refine ⟨hp, by simp, ?_⟩
  intro q hq p' hp'
  have hp'' : p' = (f1, f2) := by simpa using hp'
  subst hp''
  constructor
  · intro hqe
    exact hm1 (hqe ▸ hq)
  · intro hqe
    exact hm2 (hqe ▸ hq)

set_option maxHeartbeats 1000000 in
theorem initDistancesLoop_spec (n lc : Nat) :
    ∀ (fuel : Nat) (dists : List ((Nat × Nat) × Int)) (links : List (Nat × Nat))
      (rng rng' : List Nat) (dists' : List ((Nat × Nat) × Int))
      (links' : List (Nat × Nat)),
      initDistancesLoop n lc fuel dists links rng = some (dists', links', rng') →
      (links.length ≤ 2 * lc → links'.length = 2 * lc) ∧
      ((∀ e ∈ dists, 1 ≤ e.2 ∧ e.2 ≤ 20) → ∀ e ∈ dists', 1 ≤ e.2 ∧ e.2 ≤ 20) ∧
      ((∀ a b dd, ((a, b), dd) ∈ dists → ((b, a), dd) ∈ dists) →
        ∀ a b dd, ((a, b), dd) ∈ dists' → ((b, a), dd) ∈ dists') ∧
      ((∀ k, k ∈ dists.map Prod.fst ↔ k ∈ links ∨ (k.2, k.1) ∈ links) →
        (∀ k, k ∈ dists'.map Prod.fst ↔ k ∈ links' ∨ (k.2, k.1) ∈ links')) ∧
      (links.Pairwise (fun p q => p ≠ q ∧ p ≠ (q.2, q.1)) →
        links'.Pairwise (fun p q => p ≠ q ∧ p ≠ (q.2, q.1))) := by
  intro fuel
  induction fuel with
  | zero =>
    intro dists links rng rng' dists' links' h
    rw [initDistancesLoop] at h
    by_cases hlt : links.length < 2 * lc
    · rw [if_pos hlt] at h
      exact absurd h (by simp)
    · rw [if_neg hlt] at h
      obtain ⟨h1, h2, h3⟩ : dists = dists' ∧ links = links' ∧ rng = rng' := by
        simpa using h
      subst h1
      subst h2
      exact ⟨fun hle => Nat.le_antisymm hle (not_lt.mp hlt),
        fun p => p, fun p => p, fun p => p, fun p => p⟩
  | succ fuel ih =>
    intro dists links rng rng' dists' links' h
    rw [initDistancesLoop] at h
    by_cases hlt : links.length < 2 * lc
    swap
    · rw [if_neg hlt] at h
      obtain ⟨h1, h2, h3⟩ : dists = dists' ∧ links = links' ∧ rng = rng' := by
        simpa using h
      subst h1
      subst h2
      exact ⟨fun hle => Nat.le_antisymm hle (not_lt.mp hlt),
        fun p => p, fun p => p, fun p => p, fun p => p⟩
    rw [if_pos hlt] at h
    rcases hs : sample2 n rng with ⟨f1, f2, rng1⟩
    rw [hs] at h
    simp only at h
    by_cases hmem : (f1, f2) ∈ links ∨ (f2, f1) ∈ links
    · rw [if_pos hmem] at h
      exact ih dists links rng1 rng' dists' links' h
    · rw [if_neg hmem] at h
      rcases hr : randint 1 20 rng1 with ⟨d, rng2⟩
      rw [hr] at h
      simp only at h
      have hd : 1 ≤ d ∧ d ≤ 20 := by
        have hm := randint_mem 1 20 rng1 (by norm_num)
        rw [hr] at hm
        exact hm
      have H := ih (dists ++ [((f1, f2), d), ((f2, f1), d)]) (links ++ [(f1, f2)])
        rng2 rng' dists' links' h
      push_neg at hmem
      refine ⟨?_, ?_, ?_, ?_, ?_⟩
      · intro hle
        refine H.1 ?_
        simp only [List.length_append, List.length_cons, List.length_nil]
        omega
      · intro hb
        exact H.2.1 (bounds_extend dists f1 f2 d hd hb)
      · intro hsym
        exact H.2.2.1 (sym_extend dists f1 f2 d hsym)
      · intro hk
        exact H.2.2.2.1 (keys_extend dists links f1 f2 d hk)
      · intro hp
        exact H.2.2.2.2 (pairwise_extend links f1 f2 hmem.1 hmem.2 hp)

/-- C7 (amended): a completed run of the `initialize_distances` loop stores
distances for exactly `2 * link_count` distinct unordered factory pairs —
twice the requested count, because the loop guard is
`len(links) < 2 * link_count` — each with a distance in `[1, 20]`, recorded
under both orderings with the same value; the stored keys are exactly the
collected links and their swaps, and no two collected links coincide as
unordered pairs. -/
theorem init_distances_double_link_count (n lc fuel : Nat) (rng rng' : List Nat)
    (dists : List ((Nat × Nat) × Int)) (links : List (Nat × Nat))
    (h : initDistancesLoop n lc fuel [] [] rng = some (dists, links, rng')) :
    links.length = 2 * lc ∧
    (∀ e ∈ dists, 1 ≤ e.2 ∧ e.2 ≤ 20) ∧
    (∀ a b dd, ((a, b), dd) ∈ dists → ((b, a), dd) ∈ dists) ∧
    (∀ k, k ∈ dists.map Prod.fst ↔ k ∈ links ∨ (k.2, k.1) ∈ links) ∧
    links.Pairwise (fun p q => p ≠ q ∧ p ≠ (q.2, q.1)) := by
  have H := initDistancesLoop_spec n lc fuel [] [] rng rng' dists links h
  exact ⟨H.1 (by simp), H.2.1 (by simp), H.2.2.1 (by simp),
    H.2.2.2.1 (by simp), H.2.2.2.2 (by simp)⟩

/-- Counterexample to C7 as stated: requesting `link_count = 1` in a
3-factory graph, the loop only stops after collecting two distinct unordered
pairs — not the one requested. -/
theorem link_count_cex :
    initDistancesLoop 3 1 10 [] [] [0, 0, 0, 0, 1, 0] =
      some ([((0, 1), 1), ((1, 0), 1), ((0, 2), 1), ((2, 0), 1)],
        [(0, 1), (0, 2)], []) ∧
    ([(0, 1), (0, 2)] : List (Nat × Nat)).length ≠ 1 := by
  decide

/-- Witness for the amended C7: a 4-factory run with `link_count = 1`
collecting the two links `(0,1)` and `(0,2)`. -/
theorem init_distances_double_link_count_witness :
    ([(0, 1), (0, 2)] : List (Nat × Nat)).length = 2 * 1 ∧
    (∀ e ∈ ([((0, 1), 1), ((1, 0), 1), ((0, 2), 1), ((2, 0), 1)] :
        List ((Nat × Nat) × Int)), 1 ≤ e.2 ∧ e.2 ≤ 20) := by
  have H := init_distances_double_link_count 4 1 10 [0, 0, 0, 0, 1, 0] []
    [((0, 1), 1), ((1, 0), 1), ((0, 2), 1), ((2, 0), 1)] [(0, 1), (0, 2)] (by decide)
  exact ⟨H.1, H.2.1⟩

/-! ## C10: deterministic tie-break by first arrival -/

theorem argmaxC_first_max :
    ∀ (cs1 : List (Int × Int)) (c : Int × Int) (cs2 : List (Int × Int)),
      (∀ x ∈ cs1, x.2 < c.2) → (∀ x ∈ cs2, x.2 ≤ c.2) →
      argmaxC (cs1 ++ c :: cs2) = c
  | [], c, cs2, _, h2 => by
    cases cs2 with
    | nil => rfl
    | cons d ds =>
      rw [List.nil_append, argmaxC_cons c (d :: ds) (by simp)]
      have hle : (argmaxC (d :: ds)).2 ≤ c.2 := h2 _ (argmaxC_mem (d :: ds) (by simp))
      rw [if_neg (by omega)]
  | x :: cs1, c, cs2, h1, h2 => by
    have hrest : argmaxC (cs1 ++ c :: cs2) = c :=
      argmaxC_first_max cs1 c cs2 (fun y hy => h1 y (List.mem_cons_of_mem _ hy)) h2
    rw [List.cons_append, argmaxC_cons x (cs1 ++ c :: cs2) (by simp), hrest,
      if_pos (h1 x (List.mem_cons_self _ _))]

theorem eliminate_headD_first_max (cs1 : List (Int × Int)) (c : Int × Int)
    (cs2 : List (Int × Int)) (hlen : 1 < (cs1 ++ c :: cs2).length)
    (h1 : ∀ x ∈ cs1, x.2 < c.2) (h2 : ∀ x ∈ cs2, x.2 ≤ c.2) :
    ((eliminate (cs1 ++ c :: cs2)).headD (0, 0)).1 = c.1 := by
  have hne : cs1 ++ c :: cs2 ≠ [] := by simp
  have harg := argmaxC_first_max cs1 c cs2 h1 h2
  unfold eliminate
  rw [if_pos hlen]
  rcases hs : sortDesc (cs1 ++ c :: cs2) with _ | ⟨⟨w, wc⟩, rest⟩
  · exfalso
    have hl := length_sortDesc (cs1 ++ c :: cs2)
    rw [hs] at hl
    simp only [List.length_nil] at hl
    omega
  · simp only [List.headD]
    have hh := headD_sortDesc (cs1 ++ c :: cs2) hne (0, 0)
    rw [hs] at hh
    simp only [List.headD] at hh
    rw [harg] at hh
    exact congrArg Prod.fst hh

theorem addCombatant_keys_mem :
    ∀ (cs : List (Int × Int)) (o n : Int), o ∈ cs.map Prod.fst →
      (addCombatant cs o n).map Prod.fst = cs.map Prod.fst
  | [], o, n, h => by simp at h
  | b :: rest, o, n, h => by
    simp only [addCombatant]
    split
    · next heq => simp [heq]
    · next hne =>
      rw [List.map_cons] at h
      have ho : o ∈ rest.map Prod.fst := by
        rcases List.mem_cons.mp h with h1 | h1
        · exact absurd h1.symm hne
        · exact h1
      simp [addCombatant_keys_mem rest o n ho]

theorem addCombatant_keys_new :
    ∀ (cs : List (Int × Int)) (o n : Int), o ∉ cs.map Prod.fst →
      (addCombatant cs o n).map Prod.fst = cs.map Prod.fst ++ [o]
  | [], o, n, _ => by simp [addCombatant]
  | b :: rest, o, n, h => by
    simp only [addCombatant]
    have hne : ¬b.1 = o := by
      intro he
      exact h (by rw [List.map_cons, he]; exact List.mem_cons_self _ _)
    rw [if_neg hne]
    have hrest : o ∉ rest.map Prod.fst := by
      intro hm
      exact h (by rw [List.map_cons]; exact List.mem_cons_of_mem _ hm)
    simp [addCombatant_keys_new rest o n hrest]

theorem firstOccurrences_congr :
    ∀ (xs : List Int) (s1 s2 : List Int), (∀ x, x ∈ s1 ↔ x ∈ s2) →
      firstOccurrences s1 xs = firstOccurrences s2 xs
  | [], _, _, _ => rfl
  | x :: xs, s1, s2, h => by
    simp only [firstOccurrences]
    by_cases hx : x ∈ s1
    · rw [if_pos hx, if_pos ((h x).1 hx)]
      exact firstOccurrences_congr xs s1 s2 h
    · rw [if_neg hx, if_neg (fun hz => hx ((h x).2 hz))]
      refine congrArg (x :: ·) (firstOccurrences_congr xs (x :: s1) (x :: s2) ?_)
      intro y
      simp [h y]

theorem foldl_addCombatant_keys :
    ∀ (ts : List Troop) (cs : List (Int × Int)),
      (ts.foldl (fun cs t => addCombatant cs t.owner t.num_cyborgs) cs).map Prod.fst =
        cs.map Prod.fst ++ firstOccurrences (cs.map Prod.fst) (ts.map Troop.owner)
  | [], cs => by simp [firstOccurrences]
  | t :: ts, cs => by
    simp only [List.foldl_cons, List.map_cons, firstOccurrences]
    by_cases h : t.owner ∈ cs.map Prod.fst
    · rw [if_pos h, foldl_addCombatant_keys ts (addCombatant cs t.owner t.num_cyborgs),
        addCombatant_keys_mem cs _ _ h]
    · rw [if_neg h, foldl_addCombatant_keys ts (addCombatant cs t.owner t.num_cyborgs),
        addCombatant_keys_new cs _ _ h,
        firstOccurrences_congr (ts.map Troop.owner) ((cs.map Prod.fst ++ [t.owner]))
          (t.owner :: cs.map Prod.fst) (by intro y; simp; tauto)]
      simp

/-- C10: ties are resolved deterministically by arrival order.  (1) In a
multi-owner battle, the surviving owner is the entry of the aggregated
per-owner list that strictly exceeds every earlier entry and is at least
every later entry — i.e. the first-listed owner among the equally strongest,
because the descending sort is stable.  (2) The aggregated list's owners
appear in the order of each owner's first troop in the battle group's list.
(3)–(4) End to end: two equally strong troops of players 2 and 1 arriving
together conquer a (negative-garrison) neutral factory for whichever player's
troop was added to the active troop collection first. -/
theorem tie_break_first_arrival :
    (∀ (cs1 : List (Int × Int)) (c : Int × Int) (cs2 : List (Int × Int)),
      1 < (cs1 ++ c :: cs2).length →
      (∀ x ∈ cs1, x.2 < c.2) → (∀ x ∈ cs2, x.2 ≤ c.2) →
      ((eliminate (cs1 ++ c :: cs2)).headD (0, 0)).1 = c.1) ∧
    (∀ ts : List Troop,
      (aggregate ts).map Prod.fst = firstOccurrences [] (ts.map Troop.owner)) ∧
    ((update gTie [0]).1.factories.getD 0 default).owner = 2 ∧
    ((update gTieSwapped [0]).1.factories.getD 0 default).owner = 1 := by
  refine ⟨eliminate_headD_first_max, ?_, by decide, by decide⟩
  intro ts
  have h := foldl_addCombatant_keys ts []
  simpa [aggregate] using h

/-- Witness for C10: the tie `{2 ↦ 5, 1 ↦ 5}` (player 2 listed first) is won
by player 2, and aggregation keeps first-arrival key order on a concrete
three-troop group. -/
theorem tie_break_first_arrival_witness :
    ((eliminate [(2, 5), (1, 5)]).headD (0, 0)).1 = 2 ∧
    (aggregate [⟨2, 3, 0, 0, 0⟩, ⟨1, 4, 0, 0, 0⟩, ⟨2, 2, 0, 0, 0⟩]).map Prod.fst =
      firstOccurrences [] [2, 1, 2] :=
  ⟨tie_break_first_arrival.1 [] (2, 5) [(1, 5)] (by decide) (by simp) (by decide),
   tie_break_first_arrival.2.1 [⟨2, 3, 0, 0, 0⟩, ⟨1, 4, 0, 0, 0⟩, ⟨2, 2, 0, 0, 0⟩]⟩

/-- Witness for the amended C1, at the `gConquest` data. -/
theorem conquest_receives_production_same_turn_witness :
    (update ⟨[⟨1, 10, 0, 0⟩, ⟨0, 2, 0, 0⟩], [⟨1, 5, 0, 1, 1⟩], [], []⟩
        [3]).1.factories.getD 1 default = ⟨1, 6, 3, 0⟩ :=
  (conquest_receives_production_same_turn [⟨1, 10, 0, 0⟩, ⟨0, 2, 0, 0⟩] 1 5 0 1 [] [3]
    (by decide) (by decide) (by decide) (by decide) (by decide)).trans (by decide)

end Referee
